import Mathlib

/-!
Verification development for the toyserver module resolver
(`src/node/resolver.ts` and its collaborators).

The TypeScript source is shallowly embedded: paths are `String`s, the
filesystem is an explicit finite model (`FS`), the process-lifetime
memoization tables are an explicit state record (`RState`) threaded
through every operation, and fallible code returns `Except`/`Option`.
The embedding models the non-Windows build (`isWin = false`, path
separator `/`) and a process working directory of `/` for the
`path.relative`/`path.resolve` primitives (every call site in the
source passes absolute paths, for which the working directory is
irrelevant).
-/

namespace Toyserver

/-! ## String primitives

All operations are implemented over `String.data` (`List Char`) so that
list lemmas apply.  Semantics follow the JavaScript string methods used
by the source (`startsWith`, `endsWith`, `slice`, `+`). -/

/-- JS `s.startsWith(p)`: `p` is a literal prefix of `s`. -/
def strStartsWith (s p : String) : Bool :=
  p.data.isPrefixOf s.data

/-- JS `s.endsWith(p)`: `p` is a literal suffix of `s`. -/
def strEndsWith (s p : String) : Bool :=
  p.data.isSuffixOf s.data

/-- JS `s.slice(n)`: drop the first `n` characters. -/
def strDrop (s : String) (n : Nat) : String :=
  ⟨s.data.drop n⟩

/-- Number of characters of `s` (JS `s.length` for the paths involved). -/
def strLen (s : String) : Nat :=
  s.data.length

/-- JS `s.replace(/^pre/, '')`: strip `pre` once if it is a prefix. -/
def stripPrefixStr (s pre : String) : String :=
  if strStartsWith s pre then strDrop s (strLen pre) else s

/-- The query suffix of a url, JS `path.match(/\?.*$/)`: everything from
the first `?` on, or `""` when there is no `?`.  (The embedding assumes
paths without newline characters, for which this matches the regex.) -/
def queryOf (s : String) : String :=
  ⟨s.data.dropWhile (· ≠ '?')⟩

/-- Modelled from the spec: the path utility `cleanUrl` (the source file
`src/node/utils` is not part of the provided sources) strips the query
and hash from a path: it keeps everything before the first `?` or `#`. -/
def cleanUrl (s : String) : String :=
  ⟨s.data.takeWhile (fun c => c ≠ '?' ∧ c ≠ '#')⟩

/-- `slash` from the `slash` npm package: convert backslashes to forward
slashes (identity on the POSIX-style paths of this model). -/
def slashStr (s : String) : String :=
  ⟨s.data.map (fun c => if c = '\\' then '/' else c)⟩

/-! ## POSIX path model

Node's `path.posix` operations: split a path into `/`-separated
segments, normalize `.`/`..`/empty segments, and rebuild. -/

/-- Split a character list on `/`, keeping empty chunks
(like JS `s.split('/')`). -/
def splitSlashAux : List Char → List Char → List (List Char)
  | acc, [] => [acc.reverse]
  | acc, c :: rest =>
    if c = '/' then acc.reverse :: splitSlashAux [] rest
    else splitSlashAux (c :: acc) rest

/-- All `/`-separated chunks of a string, empties included. -/
def splitSlash (s : String) : List (List Char) :=
  splitSlashAux [] s.data

/-- Normalization stack machine of Node `path.posix.normalize`:
process segments left to right; `.` and empty segments vanish; `..`
pops a previous segment, is dropped at the root of an absolute path,
and accumulates at the front of a relative path. -/
def normStack (absolute : Bool) : List (List Char) → List (List Char) → List (List Char)
  | stack, [] => stack.reverse
  | stack, s :: rest =>
    if s = [] ∨ s = ['.'] then normStack absolute stack rest
    else if s = ['.', '.'] then
      match stack with
      | t :: stack' =>
        if t = ['.', '.'] then normStack absolute (s :: stack) rest
        else normStack absolute stack' rest
      | [] => if absolute then normStack absolute [] rest
              else normStack absolute [s] rest
    else normStack absolute (s :: stack) rest

/-- Interleave path segments with `/`. -/
def joinSegs : List (List Char) → List Char
  | [] => []
  | [s] => s
  | s :: rest => s ++ '/' :: joinSegs rest

/-- Node `path.posix.normalize`: resolve `.`/`..`, collapse repeated
slashes, keep a leading slash (absolute) and a trailing slash. -/
def normalizePath (s : String) : String :=
  match s.data with
  | [] => "."
  | l =>
    let absolute := l.head? = some '/'
    let trailing := l.getLast? = some '/'
    let segs := normStack absolute [] (splitSlash s)
    let body := joinSegs segs
    if absolute then
      ⟨'/' :: (if body ≠ [] ∧ trailing then body ++ ['/'] else body)⟩
    else if body = [] then "."
    else ⟨if trailing then body ++ ['/'] else body⟩

/-- Node `path.posix.join`: drop empty arguments, join the rest with
`/`, normalize; the join of no non-empty parts is `"."`. -/
def pathJoinList (parts : List String) : String :=
  match parts.filter (fun p => p.data ≠ []) with
  | [] => "."
  | ps => normalizePath ⟨joinSegs (ps.map String.data)⟩

/-- Node `path.posix.join(a, b)`. -/
def pathJoin (a b : String) : String :=
  pathJoinList [a, b]

/-- Node `path.posix.isAbsolute`. -/
def isAbsolute (s : String) : Bool :=
  strStartsWith s "/"

/-- Node `path.posix.resolve` of a single path with working directory
`/`: absolutize, normalize, and drop any trailing slash. -/
def pathResolve1 (s : String) : String :=
  let l := if isAbsolute s then s.data else '/' :: s.data
  ⟨'/' :: joinSegs (normStack true [] (splitSlashAux [] l))⟩

/-- Node `path.posix.resolve(a, b)` with working directory `/`. -/
def pathResolve (a b : String) : String :=
  if isAbsolute b then pathResolve1 b else pathResolve1 (a ++ "/" ++ b)

/-- Node `path.posix.dirname`. -/
def pathDirname (s : String) : String :=
  let hasRoot := s.data.head? = some '/'
  let r := s.data.reverse
  let r1 := r.dropWhile (· = '/')
  let r2 := r1.dropWhile (· ≠ '/')
  let r3 := r2.dropWhile (· = '/')
  if r3 = [] then (if hasRoot then "/" else ".") else ⟨r3.reverse⟩

/-- Drop the longest common prefix of two segment lists. -/
def dropCommon : List (List Char) → List (List Char) → (List (List Char) × List (List Char))
  | f :: fs, t :: ts =>
    if f = t then dropCommon fs ts else (f :: fs, t :: ts)
  | fs, ts => (fs, ts)

/-- Node `path.posix.relative` (working directory `/`): resolve both
paths, strip the common segment prefix, climb with `..` for what is
left of `from`, then descend into what is left of `to`. -/
def pathRelative (f t : String) : String :=
  let fsegs := normStack true [] (splitSlash (pathResolve1 f))
  let tsegs := normStack true [] (splitSlash (pathResolve1 t))
  let (f', t') := dropCommon fsegs tsegs
  ⟨joinSegs (f'.map (fun _ => ['.', '.']) ++ t')⟩

/-! ## Filesystem model

A finite, immutable snapshot: the set of regular files and the set of
directories, each as exact path strings.  `fs.statSync` succeeds
exactly on listed paths and otherwise throws (`statIsFileE`). -/

structure FS where
  files : List String
  dirs : List String
deriving DecidableEq, Repr

/-- `fs.existsSync` (never throws). -/
def existsFS (fs : FS) (p : String) : Bool :=
  fs.files.contains p || fs.dirs.contains p

/-- `fs.statSync(p).isFile()` as a fallible primitive: `Except.error`
models the exception thrown when `p` does not exist. -/
def statIsFileE (fs : FS) (p : String) : Except String Bool :=
  if fs.files.contains p then .ok true
  else if fs.dirs.contains p then .ok false
  else .error "ENOENT"

/-- `isFile` from the source: `statSync(file).isFile()` inside
`try { ... } catch { return false }`. -/
def isFile (fs : FS) (p : String) : Bool :=
  match statIsFileE fs p with
  | .ok b => b
  | .error _ => false

/-- `isDir` from the source:
`fs.existsSync(p) && fs.statSync(p).isDirectory()` (the `existsSync`
guard keeps the unprotected `statSync` from throwing). -/
def isDirFS (fs : FS) (p : String) : Bool :=
  existsFS fs p && (match statIsFileE fs p with
    | .ok b => !b
    | .error _ => false)

/-! ## Association-list maps

The process-lifetime `Map` objects of the source, with JS truthiness:
several call sites treat an empty-string value like a missing entry. -/

/-- `map.get(k)` (presence-based). -/
def mget (m : List (String × String)) (k : String) : Option String :=
  (m.find? (fun kv => kv.1 = k)).map (·.2)

/-- `map.get(k)` at a call site that tests the result for truthiness:
an empty-string value counts as a miss. -/
def mgetTruthy (m : List (String × String)) (k : String) : Option String :=
  match mget m k with
  | some v => if v = "" then none else some v
  | none => none

/-- `map.set(k, v)`. -/
def mset (m : List (String × String)) (k v : String) : List (String × String) :=
  (k, v) :: m.filter (fun kv => kv.1 ≠ k)

/-! ## Missing collaborators, modelled from the spec -/

/-- Modelled from the spec: `lookupFile(dir, ['package.json'], true)`
from the missing `src/node/utils` module finds the nearest file named
`package.json` at or above `dir` (path-only mode returns the path).
The walk moves to `path.dirname` until it reaches a fixed point; the
fuel argument bounds that walk (`dirname` never lengthens a path, so
the initial fuel below is never exhausted on real inputs). -/
def lookupFileAux (fs : FS) : String → Nat → Option String
  | _, 0 => none
  | dir, fuel + 1 =>
    let full := pathJoin dir "package.json"
    if isFile fs full then some full
    else
      let parent := pathDirname dir
      if parent = dir then none else lookupFileAux fs parent fuel

/-- Nearest `package.json` at or above `dir` (path-only mode). -/
def lookupFile (fs : FS) (dir : String) : Option String :=
  lookupFileAux fs dir (strLen dir + 3)

/-- Result of `parseNodeModuleId`. -/
structure NodeModuleId where
  scope : String
  name : String
  inPkgPath : String
deriving DecidableEq, Repr

/-- Modelled from the spec: `parseNodeModuleId` from the missing
`src/node/utils` module parses a `scope/name/subpath` identifier out of
a flattened module id: a leading `@scope` chunk is the scope, the next
`/`-chunk is the package name, the rest (joined back with `/`) is the
in-package subpath. -/
def parseNodeModuleId (id : String) : NodeModuleId :=
  let parts := (splitSlash id).map (fun l => (⟨l⟩ : String))
  if strStartsWith id "@" then
    match parts with
    | scope :: name :: rest => ⟨scope, name, ⟨joinSegs (rest.map String.data)⟩⟩
    | [scope] => ⟨scope, "", ""⟩
    | [] => ⟨"", "", ""⟩
  else
    match parts with
    | name :: rest => ⟨"", name, ⟨joinSegs (rest.map String.data)⟩⟩
    | [] => ⟨"", "", ""⟩

/-- The reserved node-module-reference prefix, `moduleRE = /^\/@modules\//`
from the missing `serverPluginModuleResolve` module; the spec fixes the
prefix as `/@modules/`. -/
def moduleRETest (p : String) : Bool :=
  strStartsWith p "/@modules/"

/-- `publicPath.replace(moduleRE, '')` for a path matching `moduleRE`. -/
def stripModuleId (p : String) : String :=
  stripPrefixStr p "/@modules/"

/-! ## Environment and state -/

/-- Ambient collaborators of the resolver. -/
structure Env where
  /-- The filesystem snapshot. -/
  fs : FS
  /-- Modelled from the spec: `resolveFrom(root, id)` from the missing
  `src/node/utils` module performs standard node-module package
  resolution (manifest fields `['module','jsnext','jsnext:main',
  'browser','main']` in priority order); it is kept abstract, returning
  the resolved file or, as `Except.error`, the exception it throws on
  failure. -/
  resolveFromFn : String → String → Except String String
  /-- Modelled from the spec: `clientPublicPath` from the missing
  `serverPluginClient` module, the reserved virtual-module public path
  that `normalizePublicPath` returns unchanged. -/
  clientPublicPath : String

/-- The mutable process-lifetime tables of the resolution subsystem:
the two resolver caches, the bidirectional module-id tables of the
missing `serverPluginModuleResolve` module (spec §3), the optimized
module cache, the node-module file cache, and the optimizer cache-dir
memo of `src/node/optimizer/index.ts`. -/
structure RState where
  requestToFileCache : List (String × String)
  fileToRequestCache : List (String × String)
  moduleIdToFileMap : List (String × String)
  moduleFileToIdMap : List (String × String)
  toyserverOptimizedMap : List (String × String)
  nodeModulesFileMap : List (String × String)
  cacheDirCache : List (String × String)
deriving DecidableEq, Repr

/-- The empty initial state (all tables empty). -/
def initState : RState :=
  ⟨[], [], [], [], [], [], []⟩

/-- The `alias` field of a resolver entry: a function or a table. -/
inductive AliasVal where
  | fn (f : String → String)
  | table (m : List (String × String))

/-- A pluggable resolver entry (`Resolver` interface).  The optional
functions return a string; the empty string stands for the falsy
`undefined`/`''` results that the chain skips. -/
structure SResolver where
  requestToFile : Option (String → String → String) := none
  fileToRequest : Option (String → String → String) := none
  aliasVal : Option AliasVal := none

/-- Everything `createResolver` fixes at construction time. -/
structure RCtx where
  root : String
  resolvers : List SResolver
  literalAlias : List (String × String)
  literalDirAlias : List (String × String)

/-! ## Optimizer cache locator (`src/node/optimizer/index.ts`) -/

/-- `OPTIMIZE_CACHE_DIR`. -/
def OPTIMIZE_CACHE_DIR : String := "node_modules/.vite_opt_cache"

/-- `resolveOptimizedCacheDir(root)`: memoized by root; the nearest
`package.json` above `root` determines `<manifest dir>/<cache dir>`;
absence of a manifest yields `none` (and, as in the source, is not
memoized). -/
def resolveOptimizedCacheDir (env : Env) (root : String) (st : RState) :
    Option String × RState :=
  match mget st.cacheDirCache root with
  | some v => (some v, st)
  | none =>
    match lookupFile env.fs root with
    | none => (none, st)
    | some pkgPath =>
      let cacheDir := pathJoin (pathDirname pkgPath) OPTIMIZE_CACHE_DIR
      (some cacheDir, { st with cacheDirCache := mset st.cacheDirCache root cacheDir })

/-! ## Module locators (`resolver.ts` bottom half) -/

/-- `resolveOptimizedModule(root, id)`: memoized by `root#id`; looks in
the optimizer cache directory for `id`, then `id + '.js'`, each of
which must exist as a regular file. -/
def resolveOptimizedModule (env : Env) (root id : String) (st : RState) :
    Option String × RState :=
  let cacheKey := root ++ "#" ++ id
  match mgetTruthy st.toyserverOptimizedMap cacheKey with
  | some cached => (some cached, st)
  | none =>
    let (cacheDir?, st1) := resolveOptimizedCacheDir env root st
    match cacheDir? with
    | none => (none, st1)
    | some cacheDir =>
      let file1 := pathJoin cacheDir id
      if existsFS env.fs file1 && isFile env.fs file1 then
        (some file1, { st1 with toyserverOptimizedMap := mset st1.toyserverOptimizedMap cacheKey file1 })
      else
        let file2 := pathJoin cacheDir (id ++ ".js")
        if existsFS env.fs file2 && isFile env.fs file2 then
          (some file2, { st1 with toyserverOptimizedMap := mset st1.toyserverOptimizedMap cacheKey file2 })
        else (none, st1)

/-- `resolveNodeModuleFile(root, id)`: memoized by `root#id`; standard
package resolution from `root`, with the thrown error caught and turned
into "no result" (reported downstream). -/
def resolveNodeModuleFile (env : Env) (root id : String) (st : RState) :
    Option String × RState :=
  let cacheKey := root ++ "#" ++ id
  match mgetTruthy st.nodeModulesFileMap cacheKey with
  | some cached => (some cached, st)
  | none =>
    match env.resolveFromFn root id with
    | .ok resolved =>
      (some resolved, { st with nodeModulesFileMap := mset st.nodeModulesFileMap cacheKey resolved })
    | .error _ => (none, st)

/-! ## Default resolution rules -/

/-- `defaultRequestToFile(publicPath, root)`: the module-prefix chain
(memo table, optimizer cache, node-module resolution with id→file
memoization on success), then the `public/` directory, then the
project root. -/
def defaultRequestToFile (env : Env) (root publicPath : String) (st : RState) :
    String × RState :=
  let (moduleHit?, st') :=
    if moduleRETest publicPath then
      let id := stripModuleId publicPath
      match mgetTruthy st.moduleIdToFileMap id with
      | some cachedNodeModule => (some cachedNodeModule, st)
      | none =>
        let (optimizedModule?, st1) := resolveOptimizedModule env root id st
        match optimizedModule? with
        | some optimizedModule => (some optimizedModule, st1)
        | none =>
          let (nodeModule?, st2) := resolveNodeModuleFile env root id st1
          match nodeModule? with
          | some nodeModule =>
            (some nodeModule,
             { st2 with moduleIdToFileMap := mset st2.moduleIdToFileMap id nodeModule })
          | none => (none, st2)
    else (none, st)
  match moduleHit? with
  | some f => (f, st')
  | none =>
    let publicDirPath := pathJoinList [root, "public", strDrop publicPath 1]
    if existsFS env.fs publicDirPath then (publicDirPath, st')
    else (pathJoin root (strDrop publicPath 1), st')

/-- `defaultFileToRequest(filePath, root)`:
`moduleFileToIdMap.get(filePath) || '/' + slash(relative(root, filePath)).replace(/^public\//, '')`. -/
def defaultFileToRequest (root filePath : String) (st : RState) : String :=
  match mgetTruthy st.moduleFileToIdMap filePath with
  | some id => id
  | none => "/" ++ stripPrefixStr (slashStr (pathRelative root filePath)) "public/"

/-! ## Fuzzy suffix resolution -/

/-- `supportedExts`. -/
def supportedExts : List String := [".mjs", ".js", ".ts", ".jsx", ".tsx", ".json"]

/-- The probe loop inside `resolveFilePathPostfix`: for each extension
in order, try `cleanPath + ext`, then `cleanPath + '/index' + ext`; the
first hit sets the postfix, otherwise the postfix stays empty. -/
def probeLoop (fs : FS) (cleanPath : String) : List String → String
  | [] => ""
  | ext :: rest =>
    if isFile fs (cleanPath ++ ext) then ext
    else if isFile fs (pathJoin cleanPath ("/index" ++ ext)) then "/index" ++ ext
    else probeLoop fs cleanPath rest

/-- `resolveFilePathPostfix(filePath)`: when the clean path is not an
existing regular file, probe the supported extensions; return the
postfix only when `cleanPath + postfix + query` differs from the
input (`none` marks "not fuzzy"). -/
def resolveFilePathPostfix (fs : FS) (filePath : String) : Option String :=
  let cleanPath := cleanUrl filePath
  if !isFile fs cleanPath then
    let pfx := probeLoop fs cleanPath supportedExts
    let query := queryOf filePath
    let resolved := cleanPath ++ pfx ++ query
    if resolved ≠ filePath then some pfx else none
  else none

/-- The postfix application step of `requestToFile` (its lines applying
`resolveFilePathPostfix` to the resolved path): a `/`-leading postfix
is joined, any other is appended, no postfix leaves the path alone. -/
def applyPostfixStep (fs : FS) (resolved : String) : String :=
  match resolveFilePathPostfix fs resolved with
  | some pfx =>
    if strStartsWith pfx "/" then pathJoin resolved pfx
    else resolved ++ pfx
  | none => resolved

/-! ## The resolver chain -/

/-- First resolver entry whose `requestToFile` yields a truthy result. -/
def tryResolversRTF (root publicPath : String) : List SResolver → Option String
  | [] => none
  | r :: rest =>
    match r.requestToFile with
    | some f =>
      let filepath := f publicPath root
      if filepath ≠ "" then some filepath else tryResolversRTF root publicPath rest
    | none => tryResolversRTF root publicPath rest

/-- First resolver entry whose `fileToRequest` yields a truthy result. -/
def tryResolversFTR (root filePath : String) : List SResolver → Option String
  | [] => none
  | r :: rest =>
    match r.fileToRequest with
    | some f =>
      let request := f filePath root
      if request ≠ "" then some request else tryResolversFTR root filePath rest
    | none => tryResolversFTR root filePath rest

/-- `resolver.requestToFile(publicPath)`: cache lookup, then the
resolver entries in registration order, then the default rule; fuzzy
suffix resolution on the outcome; memoize and return. -/
def requestToFile (env : Env) (ctx : RCtx) (st : RState) (publicPath : String) :
    String × RState :=
  match mget st.requestToFileCache publicPath with
  | some cached => (cached, st)
  | none =>
    let (resolved, st1) :=
      match tryResolversRTF ctx.root publicPath ctx.resolvers with
      | some filepath => (filepath, st)
      | none => defaultRequestToFile env ctx.root publicPath st
    let resolved := applyPostfixStep env.fs resolved
    (resolved, { st1 with requestToFileCache := mset st1.requestToFileCache publicPath resolved })

/-- `resolver.fileToRequest(filePath)`: cache lookup, then the resolver
entries in registration order (those results are returned without
being cached), then the default rule, which is memoized. -/
def fileToRequest (_env : Env) (ctx : RCtx) (st : RState) (filePath : String) :
    String × RState :=
  match mget st.fileToRequestCache filePath with
  | some cached => (cached, st)
  | none =>
    match tryResolversFTR ctx.root filePath ctx.resolvers with
    | some request => (request, st)
    | none =>
      let res := defaultFileToRequest ctx.root filePath st
      (res, { st with fileToRequestCache := mset st.fileToRequestCache filePath res })

/-- `resolver.isPublicRequest(publicPath)`:
`requestToFile(publicPath).startsWith(path.resolve(root, 'public'))`. -/
def isPublicRequest (env : Env) (ctx : RCtx) (st : RState) (publicPath : String) :
    Bool × RState :=
  let (f, st') := requestToFile env ctx st publicPath
  (strStartsWith f (pathResolve ctx.root "public"), st')

/-- `resolver.alias(id)`: the literal alias table first (truthy values
only), then the function-valued `alias` fields of the resolver entries
in order. -/
def aliasResolve (ctx : RCtx) (id : String) : Option String :=
  match mgetTruthy ctx.literalAlias id with
  | some aliased => some aliased
  | none =>
    let rec go : List SResolver → Option String
      | [] => none
      | r :: rest =>
        match r.aliasVal with
        | some (.fn f) =>
          let aliased := f id
          if aliased ≠ "" then some aliased else go rest
        | _ => go rest
    go ctx.resolvers

/-! ## Alias table builder (`createResolver`) -/

/-- The accumulator of `resolveAlias`: the growing resolver array plus
the literal and directory alias tables. -/
structure AliasAcc where
  resolvers : List SResolver
  literalAlias : List (String × String)
  literalDirAlias : List (String × String)

/-- The ad-hoc resolver entry that `resolveAlias` pushes for a
directory alias `key → target`: request→file strips the key prefix and
joins onto the target; file→request strips the target directory (with
a path-separator boundary) and re-attaches the key. -/
def mkDirAliasEntry (key target : String) : SResolver where
  requestToFile := some fun publicPath _root =>
    if strStartsWith publicPath key then
      pathJoin target (strDrop publicPath (strLen key))
    else ""
  fileToRequest := some fun filePath _root =>
    if strStartsWith filePath (target ++ "/") then
      slashStr (key ++ pathRelative target filePath)
    else ""
  aliasVal := none

/-- One iteration of the `for (const key in alias)` loop of
`resolveAlias`: a `/`-delimited key with an absolute target is a
directory alias (target re-rooted under `root` when that exists as a
directory, else used literally when it is a directory, else the entry
is skipped); anything else lands in the literal alias table. -/
def resolveAliasStep (fs : FS) (root : String) (acc : AliasAcc) (kv : String × String) :
    AliasAcc :=
  let key := kv.1
  let target := kv.2
  if strStartsWith key "/" && strEndsWith key "/" && isAbsolute target then
    let fromRoot := pathJoin root target
    if isDirFS fs fromRoot then
      { acc with
        resolvers := acc.resolvers ++ [mkDirAliasEntry key fromRoot]
        literalDirAlias := mset acc.literalDirAlias key fromRoot }
    else if !isDirFS fs target then acc
    else
      { acc with
        resolvers := acc.resolvers ++ [mkDirAliasEntry key target]
        literalDirAlias := mset acc.literalDirAlias key target }
  else { acc with literalAlias := mset acc.literalAlias key target }

/-- `createResolver(root, resolvers, userAlias)`: absorb the
table-valued `alias` fields of the supplied resolvers in order, then
the user alias table (so user literal aliases are written last);
directory aliases append ad-hoc entries after the supplied resolvers. -/
def createResolver (fs : FS) (root : String) (resolvers : List SResolver)
    (userAlias : List (String × String)) : RCtx :=
  let acc0 : AliasAcc := ⟨resolvers, [], []⟩
  let acc1 := resolvers.foldl
    (fun acc r =>
      match r.aliasVal with
      | some (.table m) => m.foldl (resolveAliasStep fs root) acc
      | _ => acc)
    acc0
  let acc2 := userAlias.foldl (resolveAliasStep fs root) acc1
  ⟨root, acc2.resolvers, acc2.literalAlias, acc2.literalDirAlias⟩

/-! ## Public path normalizer -/

/-- The round-trip consistency message thrown by the normalizer,
verbatim from the source. -/
def checkFailMsg : String :=
  "[vite] normalizePublicPath check fail. please report to vite."

/-- The package-manifest failure message of the deep-subpath walk.
The source interpolates the public path into the message; its
contracted verb form is transcribed as `cannot` here. -/
def pkgFailMsg (publicPath : String) : String :=
  "[vite] cannot find package.json for a node_module file: " ++
    publicPath ++ ". something is wrong."

/-- The `finalize` closure of `normalizePublicPath`: reattach the
query, then assert that the normalized result re-resolves to the same
file as the original input; a mismatch throws the labelled
internal-consistency error. -/
def finalizeNPP (env : Env) (ctx : RCtx) (query publicPath : String)
    (st : RState) (result : String) : Except String (String × RState) :=
  let result := result ++ query
  let (a, st1) := requestToFile env ctx st result
  let (b, st2) := requestToFile env ctx st1 publicPath
  if a ≠ b then .error checkFailMsg
  else .ok (result, st2)

/-- The `while (!filePathPostFix.startsWith(inPkgPath))` walk of the
module branch: climb from the resolved file towards the filesystem
root, one `package.json` at a time, until the path of the file
relative to the manifest directory starts with the in-package subpath;
a missing manifest throws.  The fuel models the loop counter; the walk
strictly shortens `findPkgFrom`, so the initial fuel used below cannot
run out on real inputs (exhaustion is reported as an error distinct
from any source behaviour). -/
def nppWalk (fs : FS) (filePath inPkgPath publicPath : String) :
    String → String → Nat → Except String String
  | filePathPostFix, findPkgFrom, fuel =>
    if strStartsWith filePathPostFix inPkgPath then .ok filePathPostFix
    else
      match fuel with
      | 0 => .error "nppWalk: out of fuel"
      | fuel + 1 =>
        match lookupFile fs findPkgFrom with
        | none => .error (pkgFailMsg publicPath)
        | some pkgPath =>
          nppWalk fs filePath inPkgPath publicPath
            (slashStr (pathRelative (pathDirname pkgPath) filePath))
            (pathJoin (pathDirname pkgPath) "../")
            fuel

/-- `resolver.normalizePublicPath(publicPath)`: the client virtual
path is returned unchanged; otherwise the query is split off and, for
non-module paths, the path is resolved to a file and back; module
paths are re-expressed relative to the optimizer cache directory or
through the `scope/name/subpath` walk.  Every computed result passes
through the `finalize` round-trip assertion. -/
def normalizePublicPath (env : Env) (ctx : RCtx) (st : RState) (publicPath : String) :
    Except String (String × RState) :=
  if publicPath = env.clientPublicPath then .ok (publicPath, st)
  else
    let query := queryOf publicPath
    let cleanPublicPath := cleanUrl publicPath
    if !moduleRETest cleanPublicPath then
      let (f, st1) := requestToFile env ctx st cleanPublicPath
      let (req, st2) := fileToRequest env ctx st1 f
      finalizeNPP env ctx query publicPath st2 req
    else
      let (filePath, st1) := requestToFile env ctx st cleanPublicPath
      let (cacheDir?, st2) := resolveOptimizedCacheDir env ctx.root st1
      let viaCacheDir : Option String :=
        match cacheDir? with
        | some cacheDir =>
          let relative := pathRelative cacheDir filePath
          if !strStartsWith relative ".." then
            some (pathJoinList ["/@modules/", slashStr relative])
          else none
        | none => none
      match viaCacheDir with
      | some result => finalizeNPP env ctx query publicPath st2 result
      | none =>
        let id := stripModuleId cleanPublicPath
        let parsed := parseNodeModuleId id
        if parsed.inPkgPath = "" then .ok (publicPath, st2)
        else
          match nppWalk env.fs filePath parsed.inPkgPath publicPath
              "" filePath (strLen filePath + 3) with
          | .error e => .error e
          | .ok filePathPostFix =>
            let parts := ["/@modules", parsed.scope, parsed.name, filePathPostFix]
            let result := ⟨joinSegs ((parts.filter (· ≠ "")).map String.data)⟩
            finalizeNPP env ctx query publicPath st2 result

/-! ## Spec-side description of fuzzy-suffix resolution

Used only to compare against the source-derived
`resolveFilePathPostfix`/`applyPostfixStep` (claim C5). -/

/-- The spec's probe order, written from its words: for each extension
of the fixed priority list in order, probe `path + extension` first and
`path/index + extension` second; the first successful probe supplies
the postfix, and no successful probe supplies none. -/
def fuzzyProbeSpec (fs : FS) (p : String) : List String → Option String
  | [] => none
  | ext :: rest =>
    if isFile fs (p ++ ext) then some ext
    else if isFile fs (pathJoin p ("/index" ++ ext)) then some ("/index" ++ ext)
    else fuzzyProbeSpec fs p rest

/-! ## Exception-explicit variants

The same request→file pipeline, written in the `Except` monad so that
every unprotected `fs.statSync` call propagates its exception; the
source protects each such call with either a `try`/`catch` (already
inside `isFile`) or an `existsSync` guard, and claim C10 states that
the pipeline therefore never throws. -/

/-- The `tryResolve` closure of `resolveOptimizedModule`, with its
unguarded `fs.statSync(file).isFile()` made fallible (the source
guards it behind `fs.existsSync(file) &&`). -/
def tryResolveOptE (fs : FS) (cacheDir file : String) : Except String (Option String) := do
  let file := pathJoin cacheDir file
  if existsFS fs file then
    let isf ← statIsFileE fs file
    if isf then pure (some file) else pure none
  else pure none

/-- `resolveOptimizedModule` in the `Except` monad. -/
def resolveOptimizedModuleE (env : Env) (root id : String) (st : RState) :
    Except String (Option String × RState) := do
  let cacheKey := root ++ "#" ++ id
  match mgetTruthy st.toyserverOptimizedMap cacheKey with
  | some cached => pure (some cached, st)
  | none =>
    let (cacheDir?, st1) := resolveOptimizedCacheDir env root st
    match cacheDir? with
    | none => pure (none, st1)
    | some cacheDir =>
      match ← tryResolveOptE env.fs cacheDir id with
      | some file1 =>
        pure (some file1,
          { st1 with toyserverOptimizedMap := mset st1.toyserverOptimizedMap cacheKey file1 })
      | none =>
        match ← tryResolveOptE env.fs cacheDir (id ++ ".js") with
        | some file2 =>
          pure (some file2,
            { st1 with toyserverOptimizedMap := mset st1.toyserverOptimizedMap cacheKey file2 })
        | none => pure (none, st1)

/-- `defaultRequestToFile` in the `Except` monad (`resolveNodeModuleFile`
catches its own exception in the source and stays as it is). -/
def defaultRequestToFileE (env : Env) (root publicPath : String) (st : RState) :
    Except String (String × RState) := do
  let (moduleHit?, st') ←
    if moduleRETest publicPath then do
      let id := stripModuleId publicPath
      match mgetTruthy st.moduleIdToFileMap id with
      | some cachedNodeModule => pure ((some cachedNodeModule, st) : Option String × RState)
      | none =>
        let (optimizedModule?, st1) ← resolveOptimizedModuleE env root id st
        match optimizedModule? with
        | some optimizedModule => pure (some optimizedModule, st1)
        | none =>
          let (nodeModule?, st2) := resolveNodeModuleFile env root id st1
          match nodeModule? with
          | some nodeModule =>
            pure (some nodeModule,
              { st2 with moduleIdToFileMap := mset st2.moduleIdToFileMap id nodeModule })
          | none => pure (none, st2)
    else pure ((none, st) : Option String × RState)
  match moduleHit? with
  | some f => pure (f, st')
  | none =>
    let publicDirPath := pathJoinList [root, "public", strDrop publicPath 1]
    if existsFS env.fs publicDirPath then pure (publicDirPath, st')
    else pure (pathJoin root (strDrop publicPath 1), st')

/-- `requestToFile` in the `Except` monad. -/
def requestToFileE (env : Env) (ctx : RCtx) (st : RState) (publicPath : String) :
    Except String (String × RState) := do
  match mget st.requestToFileCache publicPath with
  | some cached => pure (cached, st)
  | none =>
    let (resolved, st1) ←
      match tryResolversRTF ctx.root publicPath ctx.resolvers with
      | some filepath => pure ((filepath, st) : String × RState)
      | none => defaultRequestToFileE env ctx.root publicPath st
    let resolved := applyPostfixStep env.fs resolved
    pure (resolved, { st1 with requestToFileCache := mset st1.requestToFileCache publicPath resolved })

/-- `fileToRequest` in the `Except` monad (no filesystem call occurs in
its body, so no primitive can throw; the variant exists to state claim
C10 uniformly). -/
def fileToRequestE (env : Env) (ctx : RCtx) (st : RState) (filePath : String) :
    Except String (String × RState) :=
  .ok (fileToRequest env ctx st filePath)

/-! ## Concrete example configurations

Small filesystems and resolver configurations used by the concrete
counterexamples and witnesses below. -/

/-- An environment over a given filesystem in which node-module
resolution always fails (no `node_modules` anywhere). -/
def mkEnv (fs : FS) : Env :=
  ⟨fs, fun _ _ => .error "module not found", "/toyserver/client"⟩

/-- A project where `foo.js` exists both at the root and under
`public/`: the `public/` lookup shadows the root file. -/
def fsShadow : FS := ⟨["/r/foo.js", "/r/public/foo.js"], []⟩

/-- The resolver for `fsShadow`, no user resolvers or aliases. -/
def ctxShadow : RCtx := createResolver fsShadow "/r" [] []

/-- A project whose only file sits under `public/@modules/pkg/sub.js`
and which has no `package.json` anywhere. -/
def fsDeepPublic : FS := ⟨["/r/public/@modules/pkg/sub.js"], []⟩

/-- The resolver for `fsDeepPublic`. -/
def ctxDeepPublic : RCtx := createResolver fsDeepPublic "/r" [] []

/-- A project with a file `publicx.js` whose name shares the string
prefix `public` with the static directory. -/
def fsPublicX : FS := ⟨["/r/publicx.js"], []⟩

/-- The resolver for `fsPublicX`. -/
def ctxPublicX : RCtx := createResolver fsPublicX "/r" [] []

/-- A project with a real `public/logo.png`. -/
def fsLogo : FS := ⟨["/r/public/logo.png"], []⟩

/-- The resolver for `fsLogo`. -/
def ctxLogo : RCtx := createResolver fsLogo "/r" [] []

/-- A filesystem with a directory `/d` (outside the project root)
holding `x.js`, aliased below as `/@a/`. -/
def fsDirAlias : FS := ⟨["/d/x.js"], ["/d"]⟩

/-- The resolver for `fsDirAlias` with the directory alias
`/@a/ → /d`. -/
def ctxDirAlias : RCtx := createResolver fsDirAlias "/r" [] [("/@a/", "/d")]

/-- A resolver entry contributing the literal alias table `a → /x`. -/
def resAliasTable : SResolver := ⟨none, none, some (.table [("a", "/x")])⟩

/-- User alias `a → ''` over `resAliasTable`: the user entry overwrites
the plugin entry with an empty (falsy) target. -/
def ctxEmptyAlias : RCtx := createResolver ⟨[], []⟩ "/r" [resAliasTable] [("a", "")]

/-- A resolver entry intercepting the module-prefixed request
`/@modules/x`. -/
def resModuleEntry : SResolver :=
  ⟨some (fun p _ => if p = "/@modules/x" then "/r/custom.js" else ""), none, none⟩

/-- Files for the module-entry example. -/
def fsModuleEntry : FS := ⟨["/r/custom.js", "/r/mod.js"], []⟩

/-- The resolver for `fsModuleEntry` with `resModuleEntry` registered. -/
def ctxModuleEntry : RCtx := createResolver fsModuleEntry "/r" [resModuleEntry] []

/-- A state whose id→file memo table already maps `x` to `/r/mod.js`. -/
def stModuleEntry : RState :=
  { initState with moduleIdToFileMap := [("x", "/r/mod.js")] }

/-- A project with a single source file `src/app.js`. -/
def fsApp : FS := ⟨["/r/src/app.js"], []⟩

/-- The resolver for `fsApp`. -/
def ctxApp : RCtx := createResolver fsApp "/r" [] []

/-- The state after normalizing `/src/app` in the `fsApp` project
(used to state the witness of the normalizer consistency claim). -/
def stAppNorm : RState :=
  match normalizePublicPath (mkEnv fsApp) ctxApp initState "/src/app" with
  | .ok rs => rs.2
  | .error _ => initState

/-- A project where both `foo.js` and `foo/index.js` exist. -/
def fsFoo : FS := ⟨["/r/foo.js", "/r/foo/index.js"], ["/r/foo"]⟩

/-! ## Shared lemmas: maps and strings -/

theorem mget_mset_self (m : List (String × String)) (k v : String) :
    mget (mset m k v) k = some v := by
  simp [mget, mset]

theorem mget_mset_ne (m : List (String × String)) (k v k' : String) (h : k' ≠ k) :
    mget (mset m k v) k' = mget m k' := by
  unfold mget mset
  rw [List.find?_cons_of_neg _ (by simpa using fun hc : k = k' => h hc.symm)]
  congr 1
  induction m with
  | nil => rfl
  | cons kv rest ih =>
    by_cases h1 : kv.1 = k
    · have h2 : ¬ (kv.1 = k') := fun hc => h (by rw [← hc, h1])
      rw [List.filter_cons_of_neg (by simpa using h1)]
      rw [List.find?_cons_of_neg _ (by simpa using h2)]
      exact ih
    · rw [List.filter_cons_of_pos (by simpa using h1)]
      by_cases h2 : kv.1 = k'
      · rw [List.find?_cons_of_pos _ (by simpa using h2),
            List.find?_cons_of_pos _ (by simpa using h2)]
      · rw [List.find?_cons_of_neg _ (by simpa using h2),
            List.find?_cons_of_neg _ (by simpa using h2)]
        exact ih

theorem str_append_empty (s : String) : s ++ "" = s := by
  simp

theorem str_append_right_eq_self (s t : String) : s ++ t = s ↔ t = "" := by
  constructor
  · intro h
    have hd : s.data ++ t.data = s.data := congrArg String.data h
    exact String.ext (by simpa using hd)
  · intro h; subst h; simp

/-! ## Shared lemmas: state footprint of each operation -/

theorem resolveOptimizedCacheDir_fields (env : Env) (root : String) (st : RState) :
    (resolveOptimizedCacheDir env root st).2.requestToFileCache = st.requestToFileCache
    ∧ (resolveOptimizedCacheDir env root st).2.fileToRequestCache = st.fileToRequestCache
    ∧ (resolveOptimizedCacheDir env root st).2.moduleIdToFileMap = st.moduleIdToFileMap
    ∧ (resolveOptimizedCacheDir env root st).2.moduleFileToIdMap = st.moduleFileToIdMap
    ∧ (resolveOptimizedCacheDir env root st).2.toyserverOptimizedMap = st.toyserverOptimizedMap
    ∧ (resolveOptimizedCacheDir env root st).2.nodeModulesFileMap = st.nodeModulesFileMap := by
  unfold resolveOptimizedCacheDir
  split
  · simp
  · split <;> simp

theorem resolveOptimizedModule_fields (env : Env) (root id : String) (st : RState) :
    (resolveOptimizedModule env root id st).2.requestToFileCache = st.requestToFileCache
    ∧ (resolveOptimizedModule env root id st).2.fileToRequestCache = st.fileToRequestCache
    ∧ (resolveOptimizedModule env root id st).2.moduleIdToFileMap = st.moduleIdToFileMap
    ∧ (resolveOptimizedModule env root id st).2.moduleFileToIdMap = st.moduleFileToIdMap := by
  have h := resolveOptimizedCacheDir_fields env root st
  unfold resolveOptimizedModule
  rcases hcd : resolveOptimizedCacheDir env root st with ⟨cd?, st1⟩
  rw [hcd] at h
  obtain ⟨h1, h2, h3, h4, h5, h6⟩ := h
  simp only [hcd]
  split
  · simp
  · rcases cd? with _ | cacheDir
    · simp_all
    · split
      · simp_all
      · split
        · simp_all
        · split <;> simp_all

theorem resolveNodeModuleFile_fields (env : Env) (root id : String) (st : RState) :
    (resolveNodeModuleFile env root id st).2.requestToFileCache = st.requestToFileCache
    ∧ (resolveNodeModuleFile env root id st).2.fileToRequestCache = st.fileToRequestCache
    ∧ (resolveNodeModuleFile env root id st).2.moduleIdToFileMap = st.moduleIdToFileMap
    ∧ (resolveNodeModuleFile env root id st).2.moduleFileToIdMap = st.moduleFileToIdMap := by
  unfold resolveNodeModuleFile
  rcases hm : mgetTruthy st.nodeModulesFileMap (root ++ "#" ++ id) with _ | v <;>
    rcases hf : env.resolveFromFn root id with e | r <;>
      simp [hm, hf]

theorem defaultRequestToFile_fields (env : Env) (root p : String) (st : RState) :
    (defaultRequestToFile env root p st).2.requestToFileCache = st.requestToFileCache
    ∧ (defaultRequestToFile env root p st).2.fileToRequestCache = st.fileToRequestCache
    ∧ (defaultRequestToFile env root p st).2.moduleFileToIdMap = st.moduleFileToIdMap := by
  unfold defaultRequestToFile
  have ho := resolveOptimizedModule_fields env root (stripModuleId p) st
  rcases hopt : resolveOptimizedModule env root (stripModuleId p) st with ⟨o?, st1⟩
  rw [hopt] at ho
  have hn := resolveNodeModuleFile_fields env root (stripModuleId p) st1
  rcases hnm : resolveNodeModuleFile env root (stripModuleId p) st1 with ⟨n?, st2⟩
  rw [hnm] at hn
  rcases hm : moduleRETest p with _ | _
  · simp only [hm, Bool.false_eq_true, if_false]
    split <;> simp
  · simp only [hm, if_true]
    rcases hid : mgetTruthy st.moduleIdToFileMap (stripModuleId p) with _ | v
    · simp only [hid, hopt]
      rcases o? with _ | om
      · simp only [hnm]
        rcases n? with _ | nm
        · simp only []
          split <;> simp_all
        · simp_all
      · simp_all
    · simp [hid]

theorem requestToFile_fields (env : Env) (ctx : RCtx) (st : RState) (p : String) :
    (requestToFile env ctx st p).2.fileToRequestCache = st.fileToRequestCache
    ∧ (requestToFile env ctx st p).2.moduleFileToIdMap = st.moduleFileToIdMap := by
  unfold requestToFile
  rcases hc : mget st.requestToFileCache p with _ | v
  · rcases htr : tryResolversRTF ctx.root p ctx.resolvers with _ | f
    · have hd := defaultRequestToFile_fields env ctx.root p st
      rcases hdd : defaultRequestToFile env ctx.root p st with ⟨r, st1⟩
      rw [hdd] at hd
      simp only [hc, htr, hdd]
      exact ⟨hd.2.1, hd.2.2⟩
    · simp [hc, htr]
  · simp [hc]

theorem fileToRequest_fields (env : Env) (ctx : RCtx) (st : RState) (f : String) :
    (fileToRequest env ctx st f).2.requestToFileCache = st.requestToFileCache
    ∧ (fileToRequest env ctx st f).2.moduleIdToFileMap = st.moduleIdToFileMap
    ∧ (fileToRequest env ctx st f).2.moduleFileToIdMap = st.moduleFileToIdMap
    ∧ (fileToRequest env ctx st f).2.toyserverOptimizedMap = st.toyserverOptimizedMap
    ∧ (fileToRequest env ctx st f).2.nodeModulesFileMap = st.nodeModulesFileMap
    ∧ (fileToRequest env ctx st f).2.cacheDirCache = st.cacheDirCache := by
  unfold fileToRequest
  split
  · simp
  · split <;> simp

/-! ## Shared lemmas: cache behaviour of the two directions -/

theorem requestToFile_hit (env : Env) (ctx : RCtx) (st : RState) (p v : String)
    (h : mget st.requestToFileCache p = some v) :
    requestToFile env ctx st p = (v, st) := by
  unfold requestToFile
  rw [h]

theorem requestToFile_caches_self (env : Env) (ctx : RCtx) (st : RState) (p : String) :
    mget (requestToFile env ctx st p).2.requestToFileCache p
      = some (requestToFile env ctx st p).1 := by
  unfold requestToFile
  rcases hc : mget st.requestToFileCache p with _ | v
  · rcases htr : tryResolversRTF ctx.root p ctx.resolvers with _ | f
    · rcases hdd : defaultRequestToFile env ctx.root p st with ⟨r, st1⟩
      simp [hc, htr, hdd, mget_mset_self]
    · simp [hc, htr, mget_mset_self]
  · simp [hc]

theorem requestToFile_req_other (env : Env) (ctx : RCtx) (st : RState) (p k : String)
    (h : k ≠ p) :
    mget (requestToFile env ctx st p).2.requestToFileCache k
      = mget st.requestToFileCache k := by
  unfold requestToFile
  rcases hc : mget st.requestToFileCache p with _ | v
  · rcases htr : tryResolversRTF ctx.root p ctx.resolvers with _ | f
    · have hd := defaultRequestToFile_fields env ctx.root p st
      rcases hdd : defaultRequestToFile env ctx.root p st with ⟨r, st1⟩
      rw [hdd] at hd
      simp only [hc, htr, hdd]
      rw [mget_mset_ne _ _ _ _ h]
      exact congrArg (fun m => mget m k) hd.1
    · simp [hc, htr, mget_mset_ne _ _ _ _ h]
  · simp [hc]

theorem fileToRequest_hit (env : Env) (ctx : RCtx) (st : RState) (f v : String)
    (h : mget st.fileToRequestCache f = some v) :
    fileToRequest env ctx st f = (v, st) := by
  unfold fileToRequest
  rw [h]


/-! ## Additional string and fold lemmas for the claims -/

theorem strStartsWith_of_append (x a b : String)
    (h : strStartsWith x (a ++ b) = true) : strStartsWith x a = true := by
  unfold strStartsWith at h ⊢
  rw [List.isPrefixOf_iff_prefix] at h ⊢
  have hd : (a ++ b).data = a.data ++ b.data := rfl
  rw [hd] at h
  exact (List.prefix_append a.data b.data).trans h

theorem resolveAliasStep_literalAlias_other (fs : FS) (root : String) (acc : AliasAcc)
    (kv : String × String) (id : String) (h : kv.1 ≠ id) :
    mget (resolveAliasStep fs root acc kv).literalAlias id = mget acc.literalAlias id := by
  unfold resolveAliasStep
  simp only []
  split_ifs <;> simp [mget_mset_ne _ _ _ _ (Ne.symm h)]

theorem foldl_literalAlias_preserve (fs : FS) (root id : String) :
    ∀ (l : List (String × String)) (acc : AliasAcc),
    (∀ kv ∈ l, kv.1 ≠ id) →
    mget (l.foldl (resolveAliasStep fs root) acc).literalAlias id
      = mget acc.literalAlias id
  | [], acc, _ => rfl
  | kv :: rest, acc, h => by
    rw [List.foldl_cons]
    rw [foldl_literalAlias_preserve fs root id rest _ (fun kv' h' => h kv' (List.mem_cons_of_mem _ h'))]
    exact resolveAliasStep_literalAlias_other fs root acc kv id (h kv (List.mem_cons_self _ _))

theorem foldl_literalAlias_mem (fs : FS) (root id v : String) :
    ∀ (l : List (String × String)) (acc : AliasAcc),
    (id, v) ∈ l → (l.map Prod.fst).Nodup →
    (strStartsWith id "/" && strEndsWith id "/" && isAbsolute v) = false →
    mget (l.foldl (resolveAliasStep fs root) acc).literalAlias id = some v
  | [], _, hmem, _, _ => absurd hmem (List.not_mem_nil _)
  | kv :: rest, acc, hmem, hnodup, hshape => by
    rw [List.foldl_cons]
    rcases List.mem_cons.mp hmem with heq | hrest
    · subst heq
      have hnotin : ∀ kv' ∈ rest, kv'.1 ≠ id := by
        intro kv' h' hcontra
        have : id ∈ rest.map Prod.fst := by
          rw [← hcontra]
          exact List.mem_map_of_mem _ h'
        exact (List.nodup_cons.mp hnodup).1 this
      rw [foldl_literalAlias_preserve fs root id rest _ hnotin]
      unfold resolveAliasStep
      simp only []
      rw [if_neg (by simp [hshape])]
      exact mget_mset_self _ _ _
    · have hne : kv.1 ≠ id := by
        intro hcontra
        have : id ∈ rest.map Prod.fst := by
          have : (id, v).1 ∈ rest.map Prod.fst := List.mem_map_of_mem _ hrest
          simpa using this
        rw [← hcontra] at this
        exact (List.nodup_cons.mp hnodup).1 this
      exact foldl_literalAlias_mem fs root id v rest _ hrest (List.nodup_cons.mp hnodup).2 hshape

/-! ## Claim C7 -/

/-- C7: for every alias entry whose key starts and ends with a slash and
whose value is an absolute path, the alias builder uses the target
joined onto the project root if that is an existing directory, else the
literal target if that is an existing directory, and otherwise skips
the alias entirely: no error is raised and neither a resolver entry nor
a table entry is registered (the accumulator is returned unchanged). -/
theorem C7_dir_alias_target_fallback (fs : FS) (root : String) (acc : AliasAcc)
    (key target : String)
    (hk1 : strStartsWith key "/" = true) (hk2 : strEndsWith key "/" = true)
    (hk3 : isAbsolute target = true) :
    (isDirFS fs (pathJoin root target) = true →
      resolveAliasStep fs root acc (key, target)
        = { acc with
            resolvers := acc.resolvers ++ [mkDirAliasEntry key (pathJoin root target)]
            literalDirAlias := mset acc.literalDirAlias key (pathJoin root target) })
    ∧ (isDirFS fs (pathJoin root target) = false → isDirFS fs target = true →
      resolveAliasStep fs root acc (key, target)
        = { acc with
            resolvers := acc.resolvers ++ [mkDirAliasEntry key target]
            literalDirAlias := mset acc.literalDirAlias key target })
    ∧ (isDirFS fs (pathJoin root target) = false → isDirFS fs target = false →
      resolveAliasStep fs root acc (key, target) = acc) := by
  refine ⟨?_, ?_, ?_⟩
  · intro h1
    unfold resolveAliasStep
    simp [hk1, hk2, hk3, h1]
  · intro h1 h2
    unfold resolveAliasStep
    simp [hk1, hk2, hk3, h1, h2]
  · intro h1 h2
    unfold resolveAliasStep
    simp [hk1, hk2, hk3, h1, h2]

/-- Witness for C7: alias `/@foo/ → /d` where `/r/d` does not exist but
`/d` is a directory: the literal target is used. -/
theorem C7_witness :
    isDirFS ⟨[], ["/d"]⟩ (pathJoin "/r" "/d") = false
    ∧ isDirFS ⟨[], ["/d"]⟩ "/d" = true
    ∧ resolveAliasStep ⟨[], ["/d"]⟩ "/r" ⟨[], [], []⟩ ("/@foo/", "/d")
        = ⟨[mkDirAliasEntry "/@foo/" "/d"], [], [("/@foo/", "/d")]⟩ := by
  refine ⟨by decide, by decide, ?_⟩
  have h := (C7_dir_alias_target_fallback ⟨[], ["/d"]⟩ "/r" ⟨[], [], []⟩ "/@foo/" "/d"
    (by decide) (by decide) (by decide)).2.1 (by decide) (by decide)
  exact h

/-! ## Claim C9 -/

/-- C9 counterexample: the alias-derived entry resolves
`/d/x.js → /@a/x.js`, and `fileToRequest` returns that result without
writing it to the file→request cache, so the cache does not contain the
argument after the call (the claim asserts it always does). -/
theorem C9_cex :
    (fileToRequest (mkEnv fsDirAlias) ctxDirAlias initState "/d/x.js").1 = "/@a/x.js"
    ∧ mget (fileToRequest (mkEnv fsDirAlias) ctxDirAlias initState
        "/d/x.js").2.fileToRequestCache "/d/x.js" = none := by
  constructor <;> decide

/-- C9 (amended): `fileToRequest` memoizes its result before returning
when the result comes from the default relative-to-root rule (no
resolver entry produced a result); a result supplied by a resolver
entry is returned without being cached. -/
theorem C9_memoizes_default (env : Env) (ctx : RCtx) (st : RState) (f : String)
    (hmiss : mget st.fileToRequestCache f = none)
    (hentries : tryResolversFTR ctx.root f ctx.resolvers = none) :
    mget (fileToRequest env ctx st f).2.fileToRequestCache f
      = some (fileToRequest env ctx st f).1 := by
  unfold fileToRequest
  simp [hmiss, hentries, mget_mset_self]

/-- Witness for C9 (amended): resolving `/r/src/app.js` with no
resolver entries memoizes `/src/app.js`. -/
theorem C9_witness :
    mget (fileToRequest (mkEnv fsApp) ctxApp initState
        "/r/src/app.js").2.fileToRequestCache "/r/src/app.js"
      = some (fileToRequest (mkEnv fsApp) ctxApp initState "/r/src/app.js").1 :=
  C9_memoizes_default (mkEnv fsApp) ctxApp initState "/r/src/app.js"
    (by decide) (by decide)

/-! ## Claim C8 -/

/-- C8 counterexample: the user alias `a → ''` is written over the
plugin alias `a → /x`, but `alias('a')` tests the stored value for
truthiness and the empty string fails the test, so the call returns no
result instead of the user target. -/
theorem C8_cex : aliasResolve ctxEmptyAlias "a" = none := by
  decide

/-- C8 (amended): for every id present as a literal alias key in the
user-supplied map with a non-empty target, `alias(id)` returns the
user target, whatever same-key aliases any resolver-supplied map
registered (user aliases are processed last and overwrite). -/
theorem C8_user_alias_precedence (fs : FS) (root : String)
    (resolvers : List SResolver) (userAlias : List (String × String)) (id v : String)
    (hmem : (id, v) ∈ userAlias)
    (hnodup : (userAlias.map Prod.fst).Nodup)
    (hshape : (strStartsWith id "/" && strEndsWith id "/" && isAbsolute v) = false)
    (hne : v ≠ "") :
    aliasResolve (createResolver fs root resolvers userAlias) id = some v := by
  unfold createResolver aliasResolve
  simp only []
  rw [mgetTruthy, foldl_literalAlias_mem fs root id v userAlias _ hmem hnodup hshape]
  simp [hne]

/-- Witness for C8 (amended): user `a → /y` over plugin `a → /x`
yields `/y`. -/
theorem C8_witness :
    aliasResolve (createResolver ⟨[], []⟩ "/r" [resAliasTable] [("a", "/y")]) "a"
      = some "/y" :=
  C8_user_alias_precedence ⟨[], []⟩ "/r" [resAliasTable] [("a", "/y")] "a" "/y"
    (by decide) (by decide) (by decide) (by decide)

/-! ## Claim C6 -/

/-- C6 counterexample: `/publicx.js` resolves to `/r/publicx.js`, which
does not lie under the directory `/r/public`, yet `isPublicRequest`
classifies it as public because the check is a plain string-prefix
test against `/r/public`. -/
theorem C6_cex :
    (isPublicRequest (mkEnv fsPublicX) ctxPublicX initState "/publicx.js").1 = true
    ∧ (requestToFile (mkEnv fsPublicX) ctxPublicX initState "/publicx.js").1
        = "/r/publicx.js"
    ∧ strStartsWith (requestToFile (mkEnv fsPublicX) ctxPublicX initState
        "/publicx.js").1 "/r/public/" = false := by
  refine ⟨by decide, by decide, by decide⟩

/-- C6 (amended): `isPublicRequest(p)` returns true exactly when the
resolved file path starts with the string `path.resolve(root, 'public')`
(a prefix test with no separator boundary); in particular every path
resolving under the directory `<root>/public/` is classified public. -/
theorem C6_prefix_classification (env : Env) (ctx : RCtx) (st : RState) (p : String) :
    ((isPublicRequest env ctx st p).1 = true
      ↔ strStartsWith (requestToFile env ctx st p).1 (pathResolve ctx.root "public") = true)
    ∧ (strStartsWith (requestToFile env ctx st p).1
        (pathResolve ctx.root "public" ++ "/") = true
      → (isPublicRequest env ctx st p).1 = true) := by
  constructor
  · unfold isPublicRequest
    constructor <;> intro h <;> exact h
  · intro h
    unfold isPublicRequest
    exact strStartsWith_of_append _ _ _ h

/-- Witness for C6 (amended): `/logo.png` resolves to
`/r/public/logo.png` and is classified public. -/
theorem C6_witness :
    strStartsWith (requestToFile (mkEnv fsLogo) ctxLogo initState "/logo.png").1
      (pathResolve "/r" "public" ++ "/") = true
    ∧ (isPublicRequest (mkEnv fsLogo) ctxLogo initState "/logo.png").1 = true :=
  ⟨by decide, (C6_prefix_classification (mkEnv fsLogo) ctxLogo initState "/logo.png").2 (by decide)⟩


/-! ## Claim C5 -/

theorem queryOf_of_clean (p : String) (h : cleanUrl p = p) : queryOf p = "" := by
  have hd : p.data.takeWhile (fun c => c ≠ '?' ∧ c ≠ '#') = p.data := congrArg String.data h
  have hall : ∀ c ∈ p.data, c ≠ '?' := by
    intro c hc
    have := List.takeWhile_eq_self_iff.mp hd c hc
    simp at this
    exact this.1
  unfold queryOf
  have : p.data.dropWhile (· ≠ '?') = [] := by
    rw [List.dropWhile_eq_nil_iff]
    intro c hc
    simp [hall c hc]
  rw [this]

theorem fuzzyProbeSpec_probeLoop (fs : FS) (p : String) :
    ∀ exts : List String, (∀ e ∈ exts, e ≠ "") →
    fuzzyProbeSpec fs p exts
      = (if probeLoop fs p exts = "" then none else some (probeLoop fs p exts))
  | [], _ => rfl
  | ext :: rest, h => by
    unfold fuzzyProbeSpec probeLoop
    by_cases h1 : isFile fs (p ++ ext) = true
    · simp [h1, h ext (List.mem_cons_self _ _)]
    · simp only [h1, Bool.false_eq_true, if_false]
      by_cases h2 : isFile fs (pathJoin p ("/index" ++ ext)) = true
      · have hne : ("/index" ++ ext : String) ≠ "" := by
          intro hc
          have := congrArg String.data hc
          simp [String.data_append] at this
        simp [h2, hne]
      · simp only [h2, Bool.false_eq_true, if_false]
        exact fuzzyProbeSpec_probeLoop fs p rest
          (fun e he => h e (List.mem_cons_of_mem _ he))

/-- C5: on a clean resolved path that is not an existing regular file,
the fuzzy-suffix step of `requestToFile` probes the extensions in the
fixed order `.mjs, .js, .ts, .jsx, .tsx, .json`, probing
`path + extension` before `path/index + extension` within each
extension; the first successful probe supplies the postfix that is
appended (so an extension-suffixed file beats the same extension's
index file), and when no probe succeeds the path is returned unchanged
and no error is raised. -/
theorem C5_fuzzy_postfix (fs : FS) (p : String)
    (hclean : cleanUrl p = p) (hnf : isFile fs p = false) :
    applyPostfixStep fs p
      = match fuzzyProbeSpec fs p supportedExts with
        | some pfx => if strStartsWith pfx "/" then pathJoin p pfx else p ++ pfx
        | none => p := by
  have hq := queryOf_of_clean p hclean
  have hspec := fuzzyProbeSpec_probeLoop fs p supportedExts (by decide)
  unfold applyPostfixStep resolveFilePathPostfix
  rw [hclean]
  simp only [hnf, hq, Bool.not_false, if_true]
  by_cases hpl : probeLoop fs p supportedExts = ""
  · rw [hpl] at hspec
    simp only [if_pos rfl] at hspec
    rw [hspec, hpl]
    simp [str_append_empty]
  · rw [if_neg hpl] at hspec
    rw [hspec]
    have hne : p ++ probeLoop fs p supportedExts ++ "" ≠ p := by
      rw [str_append_empty]
      intro hc
      exact hpl ((str_append_right_eq_self p _).mp hc)
    simp only [Bool.not_eq_true, Bool.false_eq_true, if_false, ne_eq, hne,
      not_false_eq_true, if_pos, if_true]

/-- Witness for C5: with both `/r/foo.js` and `/r/foo/index.js` on
disk, `/r/foo` gains the postfix `.js` (the extension-suffixed file
wins over the index file). -/
theorem C5_witness :
    cleanUrl "/r/foo" = "/r/foo" ∧ isFile fsFoo "/r/foo" = false
    ∧ applyPostfixStep fsFoo "/r/foo" = "/r/foo.js"
    ∧ fuzzyProbeSpec fsFoo "/r/foo" supportedExts = some ".js" := by
  refine ⟨by decide, by decide, ?_, by decide⟩
  have h := C5_fuzzy_postfix fsFoo "/r/foo" (by decide) (by decide)
  rw [h]
  decide

/-! ## Claim C4 -/

/-- C4 counterexample: a registered resolver entry matching
`/@modules/x` wins over the id→file memo table: the code consults the
resolver entries first and runs the module-prefix chain only when every
entry declined, while the claim puts the module-prefix step first. -/
theorem C4_cex :
    (requestToFile (mkEnv fsModuleEntry) ctxModuleEntry stModuleEntry "/@modules/x").1
      = "/r/custom.js"
    ∧ mgetTruthy stModuleEntry.moduleIdToFileMap "x" = some "/r/mod.js"
    ∧ ("/r/custom.js" : String) ≠ "/r/mod.js" := by
  refine ⟨by decide, by decide, by decide⟩

/-- C4 (amended): for every non-cached module-prefixed request on which
every registered resolver entry declines, `requestToFile` strips the
prefix and resolves through, in order, the id→file memo table, the
optimizer locator, and standard node-module resolution (memoizing
id→file on success), falling back to the `public/`-directory and root
rules, with fuzzy-postfix application and request-cache memoization on
the outcome; resolver entries, when they do produce a result, take
precedence over this module-prefix step. -/
theorem C4_module_chain (env : Env) (ctx : RCtx) (st : RState) (p : String)
    (hm : mget st.requestToFileCache p = none)
    (hmod : moduleRETest p = true)
    (hentries : tryResolversRTF ctx.root p ctx.resolvers = none) :
    requestToFile env ctx st p
      = (let id := stripModuleId p
         let step : String × RState :=
           match mgetTruthy st.moduleIdToFileMap id with
           | some cached => (cached, st)
           | none =>
             match resolveOptimizedModule env ctx.root id st with
             | (some opt, st1) => (opt, st1)
             | (none, st1) =>
               match resolveNodeModuleFile env ctx.root id st1 with
               | (some nm, st2) =>
                 (nm, { st2 with moduleIdToFileMap := mset st2.moduleIdToFileMap id nm })
               | (none, st2) =>
                 let publicDirPath := pathJoinList [ctx.root, "public", strDrop p 1]
                 if existsFS env.fs publicDirPath then (publicDirPath, st2)
                 else (pathJoin ctx.root (strDrop p 1), st2)
         let resolved := applyPostfixStep env.fs step.1
         (resolved, { step.2 with requestToFileCache := mset step.2.requestToFileCache p resolved })) := by
  unfold requestToFile defaultRequestToFile
  simp only [hm, hentries, hmod, if_true]
  rcases hmt : mgetTruthy st.moduleIdToFileMap (stripModuleId p) with _ | v
  · rcases hopt : resolveOptimizedModule env ctx.root (stripModuleId p) st with ⟨o?, st1⟩
    rcases o? with _ | om
    · rcases hnm : resolveNodeModuleFile env ctx.root (stripModuleId p) st1 with ⟨n?, st2⟩
      rcases n? with _ | nm
      · simp only [hmt, hopt, hnm]
      · simp only [hmt, hopt, hnm]
    · simp only [hmt, hopt]
  · simp only [hmt]

/-- Witness for C4 (amended): with no resolver entries, the memoized
id `x → /r/mod.js` answers `/@modules/x`. -/
theorem C4_witness :
    (requestToFile (mkEnv fsModuleEntry)
        (createResolver fsModuleEntry "/r" [] []) stModuleEntry "/@modules/x").1
      = "/r/mod.js" := by
  have h := C4_module_chain (mkEnv fsModuleEntry)
    (createResolver fsModuleEntry "/r" [] []) stModuleEntry "/@modules/x"
    (by decide) (by decide) (by decide)
  rw [h]
  decide


/-! ## Claim C10 -/

theorem exceptBind_ok {α β : Type} (a : α) (f : α → Except String β) :
    (Except.ok a >>= f) = f a := rfl

theorem exceptPure_ok {α : Type} (a : α) : (pure a : Except String α) = Except.ok a := rfl

theorem tryResolveOptE_ok (fs : FS) (cacheDir file : String) :
    tryResolveOptE fs cacheDir file
      = .ok (if existsFS fs (pathJoin cacheDir file) && isFile fs (pathJoin cacheDir file)
             then some (pathJoin cacheDir file) else none) := by
  unfold tryResolveOptE
  simp only []
  rcases hf : fs.files.contains (pathJoin cacheDir file) with _ | _
  · rcases hd : fs.dirs.contains (pathJoin cacheDir file) with _ | _
    · have h1 : existsFS fs (pathJoin cacheDir file) = false := by
        unfold existsFS; rw [hf, hd]; rfl
      rw [h1]; rfl
    · have h2 : statIsFileE fs (pathJoin cacheDir file) = .ok false := by
        unfold statIsFileE; rw [hf, hd]; rfl
      have h1 : existsFS fs (pathJoin cacheDir file) = true := by
        unfold existsFS; rw [hf, hd]; rfl
      have h3 : isFile fs (pathJoin cacheDir file) = false := by
        unfold isFile; rw [h2]
      rw [h1, h2, h3]; rfl
  · have h2 : statIsFileE fs (pathJoin cacheDir file) = .ok true := by
      unfold statIsFileE; rw [hf]; rfl
    have h1 : existsFS fs (pathJoin cacheDir file) = true := by
      unfold existsFS; rw [hf]; rfl
    have h3 : isFile fs (pathJoin cacheDir file) = true := by
      unfold isFile; rw [h2]
    rw [h1, h2, h3]; rfl

theorem resolveOptimizedModuleE_ok (env : Env) (root id : String) (st : RState) :
    resolveOptimizedModuleE env root id st = .ok (resolveOptimizedModule env root id st) := by
  unfold resolveOptimizedModuleE resolveOptimizedModule
  rcases hmt : mgetTruthy st.toyserverOptimizedMap (root ++ "#" ++ id) with _ | v
  · rcases hcd : resolveOptimizedCacheDir env root st with ⟨cd?, st1⟩
    simp only [hmt, hcd]
    rcases cd? with _ | cacheDir
    · rfl
    · simp only []
      rw [tryResolveOptE_ok, tryResolveOptE_ok]
      by_cases h1 : (existsFS env.fs (pathJoin cacheDir id)
          && isFile env.fs (pathJoin cacheDir id)) = true
      · rw [h1]; rfl
      · have h1' : (existsFS env.fs (pathJoin cacheDir id)
            && isFile env.fs (pathJoin cacheDir id)) = false := by simpa using h1
        rw [h1']
        by_cases h2 : (existsFS env.fs (pathJoin cacheDir (id ++ ".js"))
            && isFile env.fs (pathJoin cacheDir (id ++ ".js"))) = true
        · rw [h2]; rfl
        · have h2' : (existsFS env.fs (pathJoin cacheDir (id ++ ".js"))
              && isFile env.fs (pathJoin cacheDir (id ++ ".js"))) = false := by simpa using h2
          rw [h2']; rfl
  · simp only [hmt]; rfl

theorem defaultRequestToFileE_ok (env : Env) (root p : String) (st : RState) :
    defaultRequestToFileE env root p st = .ok (defaultRequestToFile env root p st) := by
  unfold defaultRequestToFileE defaultRequestToFile
  rcases hmod : moduleRETest p with _ | _
  · simp only [hmod, Bool.false_eq_true, if_false, exceptBind_ok, exceptPure_ok]
    split <;> rfl
  · simp only [hmod, if_true]
    rcases hmt : mgetTruthy st.moduleIdToFileMap (stripModuleId p) with _ | v
    · rw [resolveOptimizedModuleE_ok]
      rcases hopt : resolveOptimizedModule env root (stripModuleId p) st with ⟨o?, st1⟩
      rcases o? with _ | om
      · rcases hnm : resolveNodeModuleFile env root (stripModuleId p) st1 with ⟨n?, st2⟩
        rcases n? with _ | nm
        · simp only [hmt, hopt, exceptBind_ok, exceptPure_ok, hnm]
          split <;> rfl
        · simp only [hmt, hopt, exceptBind_ok, exceptPure_ok, hnm]
      · simp only [hmt, hopt, exceptBind_ok, exceptPure_ok]
    · simp only [hmt, exceptBind_ok, exceptPure_ok]

/-- C10: `requestToFile` and `fileToRequest` are total and never throw:
run in a monad where every unprotected `fs.statSync` propagates its
exception and node-module resolution may throw, both directions return
`Except.ok` of the pure result on every input (the `try`/`catch` inside
`isFile` and `resolveNodeModuleFile` and the `existsSync` guards inside
`resolveOptimizedModule` absorb every failure; only
`normalizePublicPath` can throw). -/
theorem C10_no_throw (env : Env) (ctx : RCtx) (st : RState) (p f : String) :
    requestToFileE env ctx st p = .ok (requestToFile env ctx st p)
    ∧ fileToRequestE env ctx st f = .ok (fileToRequest env ctx st f) := by
  constructor
  · unfold requestToFileE requestToFile
    rcases hc : mget st.requestToFileCache p with _ | v
    · rcases htr : tryResolversRTF ctx.root p ctx.resolvers with _ | r
      · rw [defaultRequestToFileE_ok]
        rcases hd : defaultRequestToFile env ctx.root p st with ⟨res, st1⟩
        simp only [hc, htr, hd, exceptBind_ok, exceptPure_ok]
      · simp only [hc, htr, exceptBind_ok, exceptPure_ok]
    · simp only [hc, exceptPure_ok]
  · rfl


/-! ## Claim C2 -/

theorem finalizeNPP_ok (env : Env) (ctx : RCtx) (query publicPath : String)
    (st : RState) (r0 r : String) (st' : RState)
    (h : finalizeNPP env ctx query publicPath st r0 = .ok (r, st')) :
    (requestToFile env ctx st' r).1 = (requestToFile env ctx st' publicPath).1 := by
  unfold finalizeNPP at h
  simp only [] at h
  have hca := requestToFile_caches_self env ctx st (r0 ++ query)
  rcases h1 : requestToFile env ctx st (r0 ++ query) with ⟨a, st1⟩
  rw [h1] at hca h
  have hcb := requestToFile_caches_self env ctx st1 publicPath
  rcases h2 : requestToFile env ctx st1 publicPath with ⟨b, st2⟩
  rw [h2] at hcb h
  by_cases hab : a = b
  · rw [if_neg (by simpa using hab)] at h
    injection h with h'
    injection h' with hr hst
    subst hr
    subst hst
    have hget_r : mget st2.requestToFileCache (r0 ++ query) = some a := by
      by_cases hpq : publicPath = r0 ++ query
      · rw [← hpq]
        rw [hcb, hab]
      · have := requestToFile_req_other env ctx st1 publicPath (r0 ++ query)
          (fun hc => hpq hc.symm)
        rw [h2] at this
        rw [this]
        exact hca
    rw [requestToFile_hit env ctx st2 (r0 ++ query) a hget_r,
        requestToFile_hit env ctx st2 publicPath b hcb]
    exact hab
  · rw [if_pos (by simpa using hab)] at h
    exact absurd h (by simp)

/-- C2: whenever `normalizePublicPath` returns normally with result
`r`, re-resolving `r` and the original input against the posterior
state yields the same file (`requestToFile(r) == requestToFile(p)`);
a run on which this re-resolution check would fail does not return a
value but throws the labelled internal-consistency error inside
`finalize`. -/
theorem C2_normalize_consistency (env : Env) (ctx : RCtx) (st : RState)
    (p r : String) (st' : RState)
    (h : normalizePublicPath env ctx st p = .ok (r, st')) :
    (requestToFile env ctx st' r).1 = (requestToFile env ctx st' p).1 := by
  unfold normalizePublicPath at h
  by_cases hcl : p = env.clientPublicPath
  · rw [if_pos hcl] at h
    injection h with h'
    injection h' with hr hst
    subst hr
    subst hst
    rfl
  · rw [if_neg hcl] at h
    rcases hmod : moduleRETest (cleanUrl p) with _ | _
    · simp only [hmod, Bool.not_false, if_true] at h
      rcases h1 : requestToFile env ctx st (cleanUrl p) with ⟨f, st1⟩
      rw [h1] at h
      rcases h2 : fileToRequest env ctx st1 f with ⟨req, st2⟩
      rw [h2] at h
      exact finalizeNPP_ok env ctx (queryOf p) p st2 req r st' h
    · simp only [hmod, Bool.not_true, Bool.false_eq_true, if_false] at h
      rcases h1 : requestToFile env ctx st (cleanUrl p) with ⟨filePath, st1⟩
      rw [h1] at h
      rcases h2 : resolveOptimizedCacheDir env ctx.root st1 with ⟨cd?, st2⟩
      rw [h2] at h
      rcases cd? with _ | cacheDir
      · simp only [] at h
        by_cases hpk : (parseNodeModuleId (stripModuleId (cleanUrl p))).inPkgPath = ""
        · rw [if_pos hpk] at h
          injection h with h'
          injection h' with hr hst
          subst hr
          subst hst
          rfl
        · rw [if_neg hpk] at h
          rcases hwalk : nppWalk env.fs filePath
              (parseNodeModuleId (stripModuleId (cleanUrl p))).inPkgPath p
              "" filePath (strLen filePath + 3) with e | postfixStr
          all_goals rw [hwalk] at h
          · exact absurd h (by simp)
          · exact finalizeNPP_ok env ctx (queryOf p) p st2 _ r st' h
      · simp only [] at h
        by_cases hrel : strStartsWith (pathRelative cacheDir filePath) ".." = true
        · simp only [hrel, Bool.not_true, Bool.false_eq_true, if_false] at h
          by_cases hpk : (parseNodeModuleId (stripModuleId (cleanUrl p))).inPkgPath = ""
          · rw [if_pos hpk] at h
            injection h with h'
            injection h' with hr hst
            subst hr
            subst hst
            rfl
          · rw [if_neg hpk] at h
            rcases hwalk : nppWalk env.fs filePath
                (parseNodeModuleId (stripModuleId (cleanUrl p))).inPkgPath p
                "" filePath (strLen filePath + 3) with e | postfixStr
            all_goals rw [hwalk] at h
            · exact absurd h (by simp)
            · exact finalizeNPP_ok env ctx (queryOf p) p st2 _ r st' h
        · simp only [hrel, Bool.not_false, if_true] at h
          exact finalizeNPP_ok env ctx (queryOf p) p st2 _ r st' h

/-- Witness for C2: normalizing the fuzzy request `/src/app` yields
`/src/app.js`, and both re-resolve to the same file in the posterior
state. -/
theorem C2_witness :
    normalizePublicPath (mkEnv fsApp) ctxApp initState "/src/app"
      = .ok ("/src/app.js", stAppNorm)
    ∧ (requestToFile (mkEnv fsApp) ctxApp stAppNorm "/src/app.js").1
      = (requestToFile (mkEnv fsApp) ctxApp stAppNorm "/src/app").1 :=
  ⟨by rfl,
   C2_normalize_consistency (mkEnv fsApp) ctxApp initState "/src/app" "/src/app.js"
     stAppNorm (by rfl)⟩


/-! ## Claim C1 -/

theorem existsFS_of_isFile (fs : FS) (p : String) (h : isFile fs p = true) :
    existsFS fs p = true := by
  unfold existsFS
  rcases hf : fs.files.contains p with _ | _
  · exfalso
    unfold isFile statIsFileE at h
    rw [hf] at h
    rcases hd : fs.dirs.contains p with _ | _ <;> rw [hd] at h <;> simp at h
  · rfl

/-- C1 counterexample: with `foo.js` present both at the project root
and under `public/`, the root file `F = /r/foo.js` is an existing file
under root, yet `requestToFile(fileToRequest(F))` lands on the shadow
`/r/public/foo.js`, not on `F`. -/
theorem C1_cex :
    isFile fsShadow "/r/foo.js" = true
    ∧ strStartsWith "/r/foo.js" "/r/" = true
    ∧ (fileToRequest (mkEnv fsShadow) ctxShadow initState "/r/foo.js").1 = "/foo.js"
    ∧ (requestToFile (mkEnv fsShadow) ctxShadow
        (fileToRequest (mkEnv fsShadow) ctxShadow initState "/r/foo.js").2
        (fileToRequest (mkEnv fsShadow) ctxShadow initState "/r/foo.js").1).1
      = "/r/public/foo.js"
    ∧ ("/r/public/foo.js" : String) ≠ "/r/foo.js" := by
  refine ⟨by decide, by decide, by decide, by decide, by decide⟩

/-- C1 (amended): `requestToFile(fileToRequest(F)) = F` holds for an
existing regular file `F` (clean of query/hash) when no resolver entry
is registered, the module file→id table does not cover `F`, the two
caches are cold for this pair, the derived request is not
module-prefixed, and the derived request joins back onto the root to
`F` itself — either through the `public/` directory, or through the
project root with no shadowing entry under `<root>/public` (the
counterexample shows the round trip fails when such a shadow exists). -/
theorem C1_roundtrip_under_root (env : Env) (ctx : RCtx) (st : RState) (F : String)
    (hres : ctx.resolvers = [])
    (hfile : isFile env.fs F = true)
    (hFclean : cleanUrl F = F)
    (hmfi : mgetTruthy st.moduleFileToIdMap F = none)
    (hfcache : mget st.fileToRequestCache F = none)
    (hrcache : mget st.requestToFileCache
      ("/" ++ stripPrefixStr (slashStr (pathRelative ctx.root F)) "public/") = none)
    (hqmod : moduleRETest
      ("/" ++ stripPrefixStr (slashStr (pathRelative ctx.root F)) "public/") = false)
    (hjoin :
      pathJoinList [ctx.root, "public",
        strDrop ("/" ++ stripPrefixStr (slashStr (pathRelative ctx.root F)) "public/") 1] = F
      ∨ (existsFS env.fs (pathJoinList [ctx.root, "public",
            strDrop ("/" ++ stripPrefixStr (slashStr (pathRelative ctx.root F)) "public/") 1])
          = false
        ∧ pathJoin ctx.root
            (strDrop ("/" ++ stripPrefixStr (slashStr (pathRelative ctx.root F)) "public/") 1)
          = F)) :
    (requestToFile env ctx (fileToRequest env ctx st F).2
      (fileToRequest env ctx st F).1).1 = F := by
  have hq : fileToRequest env ctx st F
      = ("/" ++ stripPrefixStr (slashStr (pathRelative ctx.root F)) "public/",
         { st with fileToRequestCache :=
            (mset st.fileToRequestCache F
              ("/" ++ stripPrefixStr (slashStr (pathRelative ctx.root F)) "public/")) }) := by
    unfold fileToRequest defaultFileToRequest
    rw [hfcache, hres]
    simp only [tryResolversFTR, hmfi]
  rw [hq]
  set q := "/" ++ stripPrefixStr (slashStr (pathRelative ctx.root F)) "public/" with hqdef
  have hpost : applyPostfixStep env.fs F = F := by
    unfold applyPostfixStep resolveFilePathPostfix
    rw [hFclean]
    simp only [hfile, Bool.not_true, Bool.false_eq_true, if_false]
  unfold requestToFile defaultRequestToFile
  rw [hrcache, hres]
  simp only [tryResolversRTF, hqmod, Bool.false_eq_true, if_false]
  rcases hjoin with hj | ⟨hex, hj⟩
  · rw [hj, if_pos (existsFS_of_isFile env.fs F hfile)]
    simp only [hpost]
  · rw [hex]
    simp only [Bool.false_eq_true, if_false]
    rw [hj]
    simp only [hpost]

/-- Witness for C1 (amended): `F = /r/src/app.js` in the `fsApp`
project round-trips through `/src/app.js` back to itself. -/
theorem C1_witness :
    (requestToFile (mkEnv fsApp) ctxApp
      (fileToRequest (mkEnv fsApp) ctxApp initState "/r/src/app.js").2
      (fileToRequest (mkEnv fsApp) ctxApp initState "/r/src/app.js").1).1
      = "/r/src/app.js" :=
  C1_roundtrip_under_root (mkEnv fsApp) ctxApp initState "/r/src/app.js"
    (by rfl) (by decide) (by decide) (by decide) (by decide) (by decide)
    (by decide) (Or.inr ⟨by decide, by decide⟩)


/-! ## Claim C3 -/

theorem fileToRequest_rerun (env : Env) (ctx : RCtx) (st1 st3 : RState)
    (F q : String) (st2 : RState)
    (hq2 : fileToRequest env ctx st1 F = (q, st2))
    (hfile : st3.fileToRequestCache = st2.fileToRequestCache) :
    (fileToRequest env ctx st3 F).1 = q := by
  unfold fileToRequest at hq2 ⊢
  rcases hc : mget st1.fileToRequestCache F with _ | v
  · rw [hc] at hq2
    rcases htr : tryResolversFTR ctx.root F ctx.resolvers with _ | req
    · rw [htr] at hq2
      simp only [] at hq2
      injection hq2 with e1 e2
      have hcached : mget st3.fileToRequestCache F = some q := by
        rw [hfile, ← e2]
        simp only []
        rw [mget_mset_self, e1]
      rw [hcached]
    · rw [htr] at hq2
      injection hq2 with e1 e2
      have hcached : mget st3.fileToRequestCache F = none := by
        rw [hfile, ← e2]
        exact hc
      simp only [hcached, htr]
      exact e1
  · rw [hc] at hq2
    injection hq2 with e1 e2
    have hcached : mget st3.fileToRequestCache F = some v := by
      rw [hfile, ← e2]
      exact hc
    rw [hcached]
    exact e1

/-- C3 counterexample: for `p = /a/../@modules/pkg/sub.js` over a
project whose only file is `public/@modules/pkg/sub.js` and which has
no `package.json`, the first normalization returns
`/@modules/pkg/sub.js` normally, but applying the normalizer to that
result throws the package-manifest error instead of returning the same
string, so `normalizePublicPath` is not idempotent as claimed. -/
theorem C3_cex :
    (normalizePublicPath (mkEnv fsDeepPublic) ctxDeepPublic initState
        "/a/../@modules/pkg/sub.js").map Prod.fst = .ok "/@modules/pkg/sub.js"
    ∧ ((normalizePublicPath (mkEnv fsDeepPublic) ctxDeepPublic initState
        "/a/../@modules/pkg/sub.js").bind
        (fun rs => normalizePublicPath (mkEnv fsDeepPublic) ctxDeepPublic rs.2 rs.1))
      = .error (pkgFailMsg "/@modules/pkg/sub.js") :=
  ⟨by rfl, by rfl⟩

/-- C3 (amended): `normalizePublicPath` is idempotent on every
query- and hash-free publicPath that does not match the reserved
module prefix and whose normalization returns normally with a result
that is also clean and non-module-prefixed: a second application
returns the same string (the counterexample shows idempotence can fail
when the result lands in the reserved module namespace). -/
theorem C3_normalize_idempotent (env : Env) (ctx : RCtx) (st : RState)
    (p r : String) (st' : RState)
    (hp : cleanUrl p = p)
    (hpm : moduleRETest p = false)
    (h : normalizePublicPath env ctx st p = .ok (r, st'))
    (hr : cleanUrl r = r)
    (hrm : moduleRETest r = false) :
    (normalizePublicPath env ctx st' r).map Prod.fst = .ok r := by
  by_cases hcl : p = env.clientPublicPath
  · unfold normalizePublicPath at h
    rw [if_pos hcl] at h
    injection h with h'
    injection h' with hr1 hst
    subst hr1
    subst hst
    unfold normalizePublicPath
    rw [if_pos hcl]
    rfl
  · unfold normalizePublicPath at h
    rw [if_neg hcl] at h
    have hq0 : queryOf p = "" := queryOf_of_clean p hp
    rw [hp] at h
    simp only [hpm, Bool.not_false, if_true] at h
    have hFc := requestToFile_caches_self env ctx st p
    rcases h1 : requestToFile env ctx st p with ⟨F, st1⟩
    rw [h1] at h hFc
    rcases h2 : fileToRequest env ctx st1 F with ⟨q, st2⟩
    rw [h2] at h
    rw [hq0] at h
    unfold finalizeNPP at h
    simp only [] at h
    rw [str_append_empty q] at h
    have hAc := requestToFile_caches_self env ctx st2 q
    rcases h3 : requestToFile env ctx st2 q with ⟨A, st3⟩
    rw [h3] at h hAc
    rcases h4 : requestToFile env ctx st3 p with ⟨B, st4⟩
    rw [h4] at h
    by_cases hab : A = B
    · rw [if_neg (by simpa using hab)] at h
      injection h with h'
      injection h' with hr1 hst
      subst hr1
      subst hst
      have hreq12 : st2.requestToFileCache = st1.requestToFileCache := by
        have hf := (fileToRequest_fields env ctx st1 F).1
        rw [h2] at hf
        exact hf
      have hp_cached : mget st2.requestToFileCache p = some F := by
        rw [hreq12]
        exact hFc
      have key : A = F ∧ st4 = st3 := by
        by_cases hpq : p = q
        · have hA : requestToFile env ctx st2 q = (F, st2) := by
            rw [← hpq]
            exact requestToFile_hit env ctx st2 p F hp_cached
          rw [hA] at h3
          injection h3 with e1 e2
          have hB : requestToFile env ctx st3 p = (F, st3) := by
            rw [← e2]
            rw [← hpq] at hA
            exact hA
          rw [hB] at h4
          injection h4 with f1 f2
          exact ⟨e1.symm, f2.symm⟩
        · have hBp : mget st3.requestToFileCache p = some F := by
            have ho := requestToFile_req_other env ctx st2 q p hpq
            rw [h3] at ho
            rw [ho]
            exact hp_cached
          have hB : requestToFile env ctx st3 p = (F, st3) :=
            requestToFile_hit env ctx st3 p F hBp
          rw [hB] at h4
          injection h4 with f1 f2
          rw [hab, ← f1]
          exact ⟨rfl, f2.symm⟩
      obtain ⟨hAF, hst43⟩ := key
      rw [hAF] at hAc
      unfold normalizePublicPath
      rw [hst43]
      by_cases hqcl : q = env.clientPublicPath
      · rw [if_pos hqcl]
        rfl
      · rw [if_neg hqcl]
        rw [hr]
        simp only [hrm, Bool.not_false, if_true]
        have h5 : requestToFile env ctx st3 q = (F, st3) :=
          requestToFile_hit env ctx st3 q F hAc
        simp only [h5]
        have hfile23 : st3.fileToRequestCache = st2.fileToRequestCache := by
          have hf := (requestToFile_fields env ctx st2 q).1
          rw [h3] at hf
          exact hf
        have h6 := fileToRequest_rerun env ctx st1 st3 F q st2 h2 hfile23
        rcases h7 : fileToRequest env ctx st3 F with ⟨q2, t2⟩
        rw [h7] at h6
        simp only [] at h6
        rw [h6] at h7
        have ht2req : t2.requestToFileCache = st3.requestToFileCache := by
          have hf := (fileToRequest_fields env ctx st3 F).1
          rw [h7] at hf
          exact hf
        have h8 : requestToFile env ctx t2 q = (F, t2) :=
          requestToFile_hit env ctx t2 q F (by rw [ht2req]; exact hAc)
        simp only [h7]
        rw [queryOf_of_clean q hr]
        unfold finalizeNPP
        simp only [h6, str_append_empty q, h8]
        rw [if_neg (fun hc : F ≠ F => hc rfl)]
        rfl
    · rw [if_pos (by simpa using hab)] at h
      exact absurd h (by simp)

/-- Witness for C3 (amended): normalizing `/src/app` gives
`/src/app.js`; normalizing that result again returns it unchanged. -/
theorem C3_witness :
    cleanUrl "/src/app" = "/src/app" ∧ moduleRETest "/src/app" = false
    ∧ cleanUrl "/src/app.js" = "/src/app.js"
    ∧ moduleRETest "/src/app.js" = false
    ∧ (normalizePublicPath (mkEnv fsApp) ctxApp stAppNorm "/src/app.js").map Prod.fst
      = .ok "/src/app.js" :=
  ⟨by decide, by decide, by decide, by decide,
   C3_normalize_idempotent (mkEnv fsApp) ctxApp initState "/src/app" "/src/app.js"
     stAppNorm (by decide) (by decide) (by rfl) (by decide) (by decide)⟩

end Toyserver
